import Mathlib

/-!
Verification of the Domain / Name naming subsystem (Domain.js) of the
dweb-transport repository: signed records, registration, and hierarchical
prefix-backtracking path resolution.

The embedding translates the JavaScript source directly:

* `splitSlash` / `joinSlash` model JavaScript `path.split('/')` and
  `array.join('/')` for the one-character separator `'/'` (in particular
  `splitSlash "" = [""]`, exactly as in JavaScript).
* Records (`Name`, `Domain`) become the inductive `Rec`; the `NameMixin`
  method `_signable` becomes `Rec._signable`.  `JSON.stringify` of the
  signable object is modelled as the structural value `Signable` (the
  stringification of that fixed-shape object is injective on its fields,
  so structural equality models byte equality of the canonical payload).
* The external key-pair collaborator (`Dweb.KeyPair`, not under the
  analysed sources) is modelled symbolically from the spec's
  signer/verifier contract: signing produces a value recording the
  signer's exported public key and the signed payload, and verification
  checks both components.
* The external `KeyValueTable` get/set and `SmartDict._after_fetch`
  collaborators (also not under the analysed sources) are modelled from
  the spec's table get/set and fetch-normalize contracts: an association
  list keyed by strings, and the identity normalization.
* `Domain.p_resolve` becomes `p_resolve` / `p_resolveSegs`: the inner
  backtracking `while` loop is `lookupLoop` (`remainder.unshift
  (pathArray.pop())` is `dropLast` plus `getLastD`), and the recursive
  call on `remainder.join('/')` recurses on the remainder segments
  directly, which is the same thing because joining and re-splitting a
  non-empty list of slash-free segments is the identity
  (`joinSlash_splitSlash` proves the corresponding identity used at the
  top level).  The `console.log` miss diagnostic is returned explicitly
  as a `LogEntry` list, and the `TypeError` that JavaScript raises when
  the matched record is a `Name` (which has no `p_resolve` method) while
  path segments remain is the explicit `RRes.err` result.
-/

/-- Characters of JavaScript `path.split('/')`: walk the character list,
cutting a segment at every `'/'`; `cur` is the current segment reversed. -/
def splitSegsAux (cur : List Char) : List Char → List (List Char)
  | [] => [cur.reverse]
  | ch :: rest =>
    if ch = '/' then cur.reverse :: splitSegsAux [] rest
    else splitSegsAux (ch :: cur) rest

/-- JavaScript `path.split('/')` (single-character separator, no limit).
On the empty string it returns `[""]`, exactly as in JavaScript. -/
def splitSlash (s : String) : List String :=
  (splitSegsAux [] s.data).map String.mk

/-- JavaScript `array.join('/')`. -/
def joinSlash : List String → String
  | [] => ""
  | [s] => s
  | s :: rest => s ++ "/" ++ joinSlash rest

/-- JavaScript `array.join(', ')`, used for `this.fullnames.join(', ')`
in the resolution diagnostics. -/
def joinComma : List String → String
  | [] => ""
  | [s] => s
  | s :: rest => s ++ ", " ++ joinComma rest

/-- Modelled from the spec: the external key-pair collaborator's private
signing material (`Dweb.KeyPair` is not among the analysed sources; the
spec specifies `sign`, `verify` and `exportPublicKey` at the interface
boundary).  A key pair is identified by its secret. -/
structure KeyPair where
  secret : String
deriving DecidableEq

/-- Modelled from the spec: `exportPublicKey() -> string`
(`keypair.signingexport()` in the source). -/
def KeyPair.signingexport (k : KeyPair) : String :=
  "PUB:" ++ k.secret

/-- The canonical signable payload: the source builds
`JSON.stringify({date, domains, name, keys, _publicurls, expires})`.
The stringification of this fixed-shape object is injective on its
fields (a `Name` record has no `keys` field, and `JSON.stringify` omits
`undefined`-valued properties, which the `Option` models), so the
structural value models the byte string. -/
structure Signable where
  date : Nat
  domains : List String
  name : String
  keys : Option (List String)
  publicurls : List String
  expires : Option String
deriving DecidableEq

/-- Modelled from the spec: signature bytes produced by the external
key-pair collaborator: `sign(payloadBytes) -> signatureBytes`.  The
symbolic signature records the signer's exported public key and the
signed payload; cryptographic verification checks both. -/
structure SigBytes where
  signer : String
  payload : Signable
deriving DecidableEq

/-- Modelled from the spec: `keypair.sign(signable)`. -/
def KeyPair.sign (k : KeyPair) (payload : Signable) : SigBytes :=
  ⟨k.signingexport, payload⟩

/-- Modelled from the spec:
`new Dweb.KeyPair({key: pub}).verify(payload, signature)`. -/
def keyVerify (pub : String) (payload : Signable) (sig : SigBytes) : Bool :=
  sig.signer == pub && sig.payload == payload

/-- One entry of the `signatures` list:
`{date, signature, signedby}` as pushed by `Domain.sign`. -/
structure SigEntry where
  date : Nat
  signature : SigBytes
  signedby : String
deriving DecidableEq

/-- Fields of a `Name` record (class `Name`, `NameMixin`): `fullnames`,
`_publicurls`, `expires`, `signatures`.  A `Name` has no `keys` field. -/
structure NameData where
  fullnames : List String
  publicurls : List String
  expires : Option String
  signatures : List SigEntry
deriving DecidableEq

/-- Fields of a `Domain` record other than its child table: the
`NameMixin` fields plus `keys` (verification keys) and `keypair`
(signing material). -/
structure DCore where
  fullnames : List String
  publicurls : List String
  expires : Option String
  signatures : List SigEntry
  keys : List String
  keypair : KeyPair
deriving DecidableEq

/-- A record: either a `Name` (leaf) or a `Domain` together with its
`_map` child table (name string to child record). -/
inductive Rec where
  | nm (d : NameData)
  | dom (c : DCore) (map : List (String × Rec))

/-- `signatures` of either record variant. -/
def Rec.signatures : Rec → List SigEntry
  | .nm d => d.signatures
  | .dom c _ => c.signatures

/-- `this.keys` as read by `_signable`: a `Domain` has a `keys` field, a
`Name` does not (JavaScript `undefined`, modelled as `none`). -/
def Rec.keysOpt : Rec → Option (List String)
  | .nm _ => none
  | .dom c _ => some c.keys

/-- `this._publicurls` of either record variant. -/
def Rec.publicurls : Rec → List String
  | .nm d => d.publicurls
  | .dom c _ => c.publicurls

/-- `this.expires` of either record variant. -/
def Rec.expires : Rec → Option String
  | .nm d => d.expires
  | .dom c _ => c.expires

/-- `this.fullnames` of either record variant. -/
def Rec.fullnames : Rec → List String
  | .nm d => d.fullnames
  | .dom c _ => c.fullnames

/-- `NameMixin._signable(domains, name, date)`:
`JSON.stringify({date, domains, name, keys: this.keys,
_publicurls: this._publicurls, expires: this.expires})`. -/
def Rec._signable (r : Rec) (domains : List String) (name : String) (date : Nat) : Signable :=
  { date := date, domains := domains, name := name,
    keys := r.keysOpt, publicurls := r.publicurls, expires := r.expires }

/-- `subdomain.signatures.push(entry)`: append one signature entry. -/
def Rec.pushSignature : Rec → SigEntry → Rec
  | .nm d, s => .nm { d with signatures := d.signatures ++ [s] }
  | .dom c m, s => .dom { c with signatures := c.signatures ++ [s] } m

/-- `Domain.sign(name, subdomain)`: sign the subdomain's signable
payload (current `this.fullnames`, the given name, the current date) and
push `{date, signature, signedby: this.keypair.signingexport()}`.
`new Date(Date.now())` is the explicit `now` argument. -/
def Domain.sign (c : DCore) (name : String) (subdomain : Rec) (now : Nat) : Rec :=
  subdomain.pushSignature
    { date := now,
      signature := c.keypair.sign (subdomain._signable c.fullnames name now),
      signedby := c.keypair.signingexport }

/-- `Domain.verify(name, subdomain)`: filter the subdomain's signatures
to those whose `signedby` is in `this.keys`, and test whether any of
them cryptographically verifies against the recomputed signable payload
(current `this.fullnames`, the given name, the signature's own date). -/
def Domain.verify (c : DCore) (name : String) (subdomain : Rec) : Bool :=
  (subdomain.signatures.filter (fun sig => c.keys.contains sig.signedby)).any
    (fun sig =>
      keyVerify sig.signedby (subdomain._signable c.fullnames name sig.date) sig.signature)

/-- Argument of `p_register`: either an existing `Domain`/`Name` record,
or a bare stored object carrying `_publicurls`/`_urls` (the source tests
`registrable._publicurls || registrable._urls`). -/
inductive Registrable where
  | record (r : Rec)
  | raw (publicurls : Option (List String)) (urls : List String)

/-- The wrapping step of `p_register`: a bare object is wrapped in a new
`Name` whose `fullnames` are each of the domain's `fullnames` joined
with the registration name by a slash, and whose `_publicurls` are the
object's `_publicurls` (or `_urls` when absent); a `Domain` or `Name` is
used as is.  The `Name` constructor initializes `signatures` to `[]`. -/
def registrableRecord (c : DCore) (name : String) : Registrable → Rec
  | .record r => r
  | .raw pub urls =>
    .nm { fullnames := c.fullnames.map (fun fn => fn ++ "/" ++ name),
          publicurls := pub.getD urls,
          expires := none,
          signatures := [] }

/-- Modelled from the spec: the external table get interface
(`KeyValueTable.p_get`, not among the analysed sources):
`get(key) -> Record-or-absent` on the domain's child mapping. -/
def p_get (m : List (String × Rec)) (key : String) : Option Rec :=
  List.lookup key m

/-- Modelled from the spec: the external fetch-normalize collaborator
(`Dweb.SmartDict._after_fetch`): returns the concrete typed record; the
identity here because the child table of this model stores typed
records. -/
def _after_fetch (r : Rec) : Rec := r

/-- Modelled from the spec: the table set interface used by
`Domain.p_set`: store the (normalized) value under the key, replacing
any previous binding (the asynchronous `Dweb.Transports.p_set`
replication is fire-and-forget and has no effect on the table). -/
def p_set (m : List (String × Rec)) (name : String) (value : Rec) : List (String × Rec) :=
  (name, _after_fetch value) :: m.filter (fun kv => !(kv.1 == name))

/-- `Domain.p_register(name, registrable)`: wrap a bare registrable in a
`Name` if needed, sign it (`this.sign(name, registrable)`), assert
self-verification, and write it into the child table
(`this.p_set(name, registrable)`).  The source performs no validation of
`name` whatsoever.  Returns the signed record and the updated table. -/
def p_register (c : DCore) (m : List (String × Rec)) (name : String)
    (reg : Registrable) (now : Nat) : Rec × List (String × Rec) :=
  let r := registrableRecord c name reg
  let r' := Domain.sign c name r now
  (r', p_set m name r')

/-- The backtracking `while` loop of `Domain.p_resolve`: try the join of
the candidate prefix (`this.p_get(pathArray.join('/'))`); on a miss,
move the candidate's last segment to the front of the remainder
(`remainder.unshift(pathArray.pop())`) and retry; stop on a hit or when
the candidate is exhausted.  (`getLastD ""` is `pathArray.pop()`: the
candidate is non-empty in the branch where it is used.) -/
def lookupLoop (m : List (String × Rec)) : List String → List String → Option (Rec × List String)
  | [], _ => none
  | p@(_ :: _), rm =>
    match p_get m (joinSlash p) with
    | some r => some (r, rm)
    | none => lookupLoop m p.dropLast (p.getLastD "" :: rm)
termination_by p _ => p.length
decreasing_by simp_all [List.length_dropLast]

/-- Number of `p_get` lookups performed by the `while` loop of
`Domain.p_resolve` on a given candidate segment list: one per iteration,
stopping at the first hit or when the candidate is exhausted (the same
recursion structure as `lookupLoop`). -/
def lookupAttempts (m : List (String × Rec)) : List String → Nat
  | [] => 0
  | p@(_ :: _) =>
    match p_get m (joinSlash p) with
    | some _ => 1
    | none => 1 + lookupAttempts m p.dropLast
termination_by p => p.length
decreasing_by simp_all [List.length_dropLast]

/-- One diagnostic line: the source's
`console.log("Unable to completely resolve", path, "in",
this.fullnames.join(', '))`. -/
structure LogEntry where
  path : String
  domain : String
deriving DecidableEq

/-- Outcome of `p_resolve`: a resolved record, the explicit absent value
(`undefined`), or the `TypeError` JavaScript raises when the recursion
reaches a `Name`, which has no `p_resolve` method. -/
inductive RRes where
  | ok (r : Option Rec)
  | err

/-- `Domain.p_resolve` on an already-split segment list, paired with the
emitted diagnostics.  On a hit with an empty remainder the normalized
record is returned; with a non-empty remainder the source evaluates
`res.p_resolve(remainder.join('/'), ...)`, i.e. it recurses into the
matched record with the remainder —  a `Name` has no `p_resolve` method,
so that call raises (`RRes.err`); a `Domain` re-splits the joined
remainder, which yields the remainder segments again (joining then
splitting a non-empty list of slash-free segments is the identity, and
segments produced by splitting contain no slash).  When no prefix
matches, the explicit absent value is returned together with the
`"Unable to completely resolve"` diagnostic recording the attempted path
and the domain's `fullnames`. -/
def p_resolveSegs : Rec → List String → RRes × List LogEntry
  | .nm _, _ => (.err, [])
  | .dom c m, segs =>
    match h : lookupLoop m segs [] with
    | none => (.ok none, [⟨joinSlash segs, joinComma c.fullnames⟩])
    | some (res, rem) =>
      match rem with
      | [] => (.ok (some (_after_fetch res)), [])
      | _ :: _ => p_resolveSegs (_after_fetch res) rem
termination_by r segs => segs.length
decreasing_by
  have key : ∀ (r0 : Rec) (rem0 : List String), ∀ (p rm : List String),
      lookupLoop m p rm = some (r0, rem0) → rem0.length < p.length + rm.length := by
    intro r0 rem0 p rm
    induction p, rm using lookupLoop.induct m with
    | case1 x =>
        intro hc
        simp [lookupLoop] at hc
    | case2 head tail rm rr hl =>
        intro hc
        rw [lookupLoop] at hc
        simp [hl] at hc
        obtain ⟨-, h2⟩ := hc
        subst h2
        simp [List.length_cons]
    | case3 head tail rm hl ih =>
        intro hc
        rw [lookupLoop] at hc
        simp [hl] at hc
        have hlt := ih hc
        simp [List.length_dropLast, List.length_cons] at hlt ⊢
        omega
  have h2 : lookupLoop m segs [] = some (res, rem) := by assumption
  have := key res rem segs [] h2
  simpa using this

/-- `Domain.p_resolve(path)`: split the path on `/` and run the
backtracking resolution; called on a `Name` the method does not exist
(`RRes.err`). -/
def p_resolve (r : Rec) (path : String) : RRes × List LogEntry :=
  p_resolveSegs r (splitSlash path)

/-- Key pair of the example root domain (test scenario of the source's
`Domain.p_test`). -/
def kpRoot : KeyPair := ⟨"root-secret"⟩

/-- Example root domain core: `fullnames ["/"]`, its own exported key in
`keys`. -/
def rootCore : DCore :=
  { fullnames := ["/"], publicurls := ["table://root"], expires := none,
    signatures := [], keys := [kpRoot.signingexport], keypair := kpRoot }

/-- Key pair of the example subdomain. -/
def kpSub : KeyPair := ⟨"sub-secret"⟩

/-- Example subdomain core. -/
def adomainCore : DCore :=
  { fullnames := ["/testingtoplevel/adomain"], publicurls := ["table://adomain"],
    expires := none, signatures := [], keys := [kpSub.signingexport], keypair := kpSub }

/-- Example leaf record (the `item1` of the source's test scenario). -/
def item1 : Rec :=
  .nm { fullnames := ["/testingtoplevel/adomain/item1"], publicurls := ["loc://item1"],
        expires := none, signatures := [] }

/-- Example subdomain record holding the leaf under the name `z`. -/
def adomainRec : Rec := .dom adomainCore [("z", item1)]

/-- Example root record with the subdomain registered under the
two-segment name `x/y`. -/
def xyRoot : Rec := .dom rootCore [("x/y", adomainRec)]

/-- Example root record with the leaf registered under `a`. -/
def aRoot : Rec := .dom rootCore [("a", item1)]

/-- Example root record with an empty child table. -/
def emptyRoot : Rec := .dom rootCore []

/-- Example core with the pre-rename `fullnames` (for the rename
invalidation scenario): same key material as `rootCore`, old name. -/
def oldCore : DCore :=
  { fullnames := ["oldname"], publicurls := ["table://root"], expires := none,
    signatures := [], keys := [kpRoot.signingexport], keypair := kpRoot }

/-- The leaf signed by the old-named domain. -/
def signedOld : Rec := Domain.sign oldCore "n" item1 3

/-- The leaf signed by the example root domain. -/
def signedItem : Rec := Domain.sign rootCore "item" item1 7

/-- A record agreeing with `item1` on `keys`, `_publicurls` and
`expires` but with different `fullnames` and a foreign signature. -/
def item1Alt : Rec :=
  .nm { fullnames := ["other/name"], publicurls := ["loc://item1"], expires := none,
        signatures := [⟨99, ⟨"X-key", ⟨0, [], "", none, [], none⟩⟩, "X-key"⟩] }


theorem lookupLoop_nil (m : List (String × Rec)) (rm : List String) :
    lookupLoop m [] rm = none := by
  simp [lookupLoop]

theorem lookupLoop_cons_hit (m : List (String × Rec)) (x : String) (xs rm : List String)
    (r : Rec) (h : p_get m (joinSlash (x :: xs)) = some r) :
    lookupLoop m (x :: xs) rm = some (r, rm) := by
  rw [lookupLoop]
  simp [h]

theorem lookupLoop_cons_miss (m : List (String × Rec)) (x : String) (xs rm : List String)
    (h : p_get m (joinSlash (x :: xs)) = none) :
    lookupLoop m (x :: xs) rm
      = lookupLoop m (x :: xs).dropLast ((x :: xs).getLastD "" :: rm) := by
  rw [lookupLoop]
  simp [h]

theorem p_resolveSegs_nm (d : NameData) (segs : List String) :
    p_resolveSegs (Rec.nm d) segs = (RRes.err, []) := by
  rw [p_resolveSegs]

theorem p_resolveSegs_miss (c : DCore) (m : List (String × Rec)) (segs : List String)
    (h : lookupLoop m segs [] = none) :
    p_resolveSegs (Rec.dom c m) segs
      = (RRes.ok none, [⟨joinSlash segs, joinComma c.fullnames⟩]) := by
  rw [p_resolveSegs]
  split
  · rfl
  · rename_i rfound rem2 h2
    rw [h] at h2
    exact absurd h2 (by simp)

theorem p_resolveSegs_hit_nil (c : DCore) (m : List (String × Rec)) (segs : List String)
    (res : Rec) (h : lookupLoop m segs [] = some (res, [])) :
    p_resolveSegs (Rec.dom c m) segs = (RRes.ok (some res), []) := by
  rw [p_resolveSegs]
  split
  · rename_i h2
    rw [h] at h2
    exact absurd h2 (by simp)
  · rename_i rfound rem2 h2
    rw [h] at h2
    simp only [Option.some.injEq, Prod.mk.injEq] at h2
    obtain ⟨hr, hrem⟩ := h2
    subst hr
    subst hrem
    rfl

theorem p_resolveSegs_hit_cons (c : DCore) (m : List (String × Rec)) (segs : List String)
    (res : Rec) (x : String) (xs : List String)
    (h : lookupLoop m segs [] = some (res, x :: xs)) :
    p_resolveSegs (Rec.dom c m) segs = p_resolveSegs (_after_fetch res) (x :: xs) := by
  rw [p_resolveSegs]
  split
  · rename_i h2
    rw [h] at h2
    exact absurd h2 (by simp)
  · rename_i rfound rem2 h2
    rw [h] at h2
    simp only [Option.some.injEq, Prod.mk.injEq] at h2
    obtain ⟨hr, hrem⟩ := h2
    subst hr
    subst hrem
    rfl

theorem mk_append_mk (a b : List Char) : String.mk a ++ String.mk b = String.mk (a ++ b) := rfl

theorem splitSegsAux_ne_nil (l cur : List Char) : splitSegsAux cur l ≠ [] := by
  induction l generalizing cur with
  | nil => simp [splitSegsAux]
  | cons ch rest ih =>
      simp only [splitSegsAux]
      split
      · simp
      · exact ih (ch :: cur)

theorem joinSlash_splitSegsAux (l cur : List Char) :
    joinSlash ((splitSegsAux cur l).map String.mk) = String.mk (cur.reverse ++ l) := by
  induction l generalizing cur with
  | nil => simp [splitSegsAux, joinSlash]
  | cons ch rest ih =>
      simp only [splitSegsAux]
      split
      · rename_i hch
        subst hch
        have hne : (splitSegsAux [] rest).map String.mk ≠ [] := by
          simp [splitSegsAux_ne_nil]
        obtain ⟨y, ys, hy⟩ := List.exists_cons_of_ne_nil hne
        simp only [List.map_cons, hy, joinSlash]
        rw [← hy, ih []]
        rw [show ("/" : String) = String.mk ['/'] from rfl, mk_append_mk, mk_append_mk]
        simp
      · rename_i hch
        rw [ih (ch :: cur)]
        simp

theorem joinSlash_splitSlash (s : String) : joinSlash (splitSlash s) = s := by
  obtain ⟨l⟩ := s
  simpa [splitSlash] using joinSlash_splitSegsAux l []

theorem splitSlash_slash_append (p : String) : splitSlash ("/" ++ p) = "" :: splitSlash p := by
  obtain ⟨l⟩ := p
  simp only [splitSlash]
  rw [show ("/" : String) ++ String.mk l = String.mk ('/' :: l) from rfl]
  simp only [splitSegsAux, List.reverse_nil, List.map_cons]
  rfl

theorem signable_pushSignature (r : Rec) (s : SigEntry) (domains : List String)
    (name : String) (date : Nat) :
    (r.pushSignature s)._signable domains name date = r._signable domains name date := by
  cases r <;> rfl

theorem signatures_pushSignature (r : Rec) (s : SigEntry) :
    (r.pushSignature s).signatures = r.signatures ++ [s] := by
  cases r <;> rfl

theorem verify_iff (c : DCore) (name : String) (sub : Rec) :
    Domain.verify c name sub = true ↔
      ∃ sig ∈ sub.signatures, sig.signedby ∈ c.keys ∧
        keyVerify sig.signedby (sub._signable c.fullnames name sig.date) sig.signature = true := by
  simp only [Domain.verify, List.any_eq_true, List.mem_filter, List.elem_iff]
  tauto

/-- C3: `Domain.verify(D, name, C)` returns true if and only if some
signature in `C.signatures` whose signer key (`signedby`) is a member of
`D.keys` cryptographically verifies against `C`'s recomputed signable
payload, built from `D`'s current `fullnames` and that signature's own
date; when no signature's signer key is in the key set, `verify` returns
`false` rather than raising.  `Domain.verify` is a total `Bool`-valued
function in this embedding, so it never raises on any input. -/
theorem c3_verify_characterization (c : DCore) (name : String) (sub : Rec) :
    (Domain.verify c name sub = true ↔
      ∃ sig ∈ sub.signatures, sig.signedby ∈ c.keys ∧
        keyVerify sig.signedby (sub._signable c.fullnames name sig.date) sig.signature = true)
    ∧ ((∀ sig ∈ sub.signatures, sig.signedby ∉ c.keys) → Domain.verify c name sub = false) := by
  refine ⟨verify_iff c name sub, fun h => ?_⟩
  rw [← Bool.not_eq_true, verify_iff]
  rintro ⟨sig, hmem, hkeys, -⟩
  exact h sig hmem hkeys

/-- Witness for C3: a concrete record whose only signature was made by
a key outside the domain's verification key set, on which `verify`
returns `false`. -/
theorem c3_verify_characterization_witness :
    Domain.verify rootCore "n" item1Alt = false :=
  (c3_verify_characterization rootCore "n" item1Alt).2 (by decide)

/-- C1: for every domain whose key pair's exported public signing key
is a member of its verification key set `keys`, and every registrable
record, immediately after `p_register(D, name, R)` the signed record
verifies: `verify(D, name, R)` returns true (register signs the record
and its self-verification succeeds). -/
theorem c1_register_roundtrip_verify (c : DCore) (m : List (String × Rec)) (name : String)
    (reg : Registrable) (now : Nat) (hkey : c.keypair.signingexport ∈ c.keys) :
    Domain.verify c name (p_register c m name reg now).1 = true := by
  simp only [p_register]
  rw [verify_iff]
  refine ⟨⟨now, c.keypair.sign ((registrableRecord c name reg)._signable c.fullnames name now),
      c.keypair.signingexport⟩, ?_, hkey, ?_⟩
  · simp [Domain.sign, signatures_pushSignature]
  · rw [show (Domain.sign c name (registrableRecord c name reg) now)
        = (registrableRecord c name reg).pushSignature
            ⟨now, c.keypair.sign ((registrableRecord c name reg)._signable c.fullnames name now),
             c.keypair.signingexport⟩ from rfl]
    rw [signable_pushSignature]
    simp [keyVerify, KeyPair.sign]

/-- Witness for C1: registering the example leaf under the example root
domain, whose exported key is in its own `keys`, yields a record that
verifies. -/
theorem c1_register_roundtrip_verify_witness :
    Domain.verify rootCore "tt" (p_register rootCore [] "tt" (Registrable.record item1) 5).1 = true :=
  c1_register_roundtrip_verify rootCore [] "tt" (Registrable.record item1) 5 (by decide)

/-- C9: for every child record all of whose signatures were computed
over a signable payload whose `domains` component is `F` (i.e. it was
signed while the signing domain's `fullnames` was `F`), a verifying
domain whose `fullnames` is any `F'` different from `F` rejects the
record: `verify` returns false.  Previously valid signatures fail to
re-verify after renaming. -/
theorem c9_rename_invalidation (c : DCore) (name : String) (sub : Rec) (F : List String)
    (hsigs : ∀ sig ∈ sub.signatures, sig.signature.payload.domains = F)
    (hne : c.fullnames ≠ F) :
    Domain.verify c name sub = false := by
  rw [← Bool.not_eq_true, verify_iff]
  rintro ⟨sig, hmem, -, hv⟩
  have hpay : sig.signature.payload = sub._signable c.fullnames name sig.date := by
    exact (by simpa [keyVerify, Bool.and_eq_true, beq_iff_eq] using hv :
      sig.signature.signer = sig.signedby ∧
        sig.signature.payload = sub._signable c.fullnames name sig.date).2
  have : sig.signature.payload.domains = c.fullnames := by
    rw [hpay]; rfl
  exact hne (by rw [← this, hsigs sig hmem])

/-- Witness for C9: the leaf signed while the domain was named
`oldname` no longer verifies against the renamed domain. -/
theorem c9_rename_invalidation_witness :
    Domain.verify rootCore "n" signedOld = false :=
  c9_rename_invalidation rootCore "n" signedOld ["oldname"] (by decide) (by decide)

/-- C10: the signable payload `_signable(domains, name, date)` depends
only on those arguments and on the record's `keys`, `_publicurls` and
`expires` fields — two records agreeing on those but differing in their
`signatures` list or `fullnames` produce identical payloads; appending a
signature never changes the payload; and appending a signature never
invalidates the verification of previously appended signatures. -/
theorem c10_signable_independence (r1 r2 : Rec) (domains : List String) (name : String)
    (date : Nat) (s : SigEntry) (c : DCore) (vname : String)
    (hk : r1.keysOpt = r2.keysOpt) (hp : r1.publicurls = r2.publicurls)
    (he : r1.expires = r2.expires) :
    r1._signable domains name date = r2._signable domains name date
    ∧ (r1.pushSignature s)._signable domains name date = r1._signable domains name date
    ∧ (Domain.verify c vname r1 = true → Domain.verify c vname (r1.pushSignature s) = true) := by
  refine ⟨by simp [Rec._signable, hk, hp, he], signable_pushSignature r1 s domains name date, ?_⟩
  intro hver
  rw [verify_iff] at hver ⊢
  obtain ⟨sig, hmem, hkeys, hv⟩ := hver
  refine ⟨sig, ?_, hkeys, ?_⟩
  · rw [signatures_pushSignature]
    exact List.mem_append_left _ hmem
  · rw [signable_pushSignature]
    exact hv

/-- Witness for C10: `item1Alt` differs from `signedItem` in
`fullnames` and `signatures` but agrees on the payload fields, so the
payloads coincide; pushing an extra signature keeps `signedItem`
verifying. -/
theorem c10_signable_independence_witness :
    signedItem._signable ["/"] "item" 7 = item1Alt._signable ["/"] "item" 7
    ∧ (signedItem.pushSignature ⟨99, ⟨"X-key", ⟨0, [], "", none, [], none⟩⟩, "X-key"⟩)._signable ["/"] "item" 7
        = signedItem._signable ["/"] "item" 7
    ∧ Domain.verify rootCore "item"
        (signedItem.pushSignature ⟨99, ⟨"X-key", ⟨0, [], "", none, [], none⟩⟩, "X-key"⟩) = true := by
  have h := c10_signable_independence signedItem item1Alt ["/"] "item" 7
    ⟨99, ⟨"X-key", ⟨0, [], "", none, [], none⟩⟩, "X-key"⟩ rootCore "item"
    (by decide) (by decide) (by decide)
  exact ⟨h.1, h.2.1, h.2.2 (by decide)⟩

/-- C4: a single level of the resolution loop of `p_resolve` performs
at most `N` lookup attempts against the domain's child table for a
candidate list of `N` segments: `lookupAttempts` counts one `p_get` per
iteration of the loop (longest candidate first, shrinking by exactly one
segment per miss, the popped segment moving to the front of the
remainder), and it is bounded by the number of segments — in particular
the loop always terminates. -/
theorem c4_lookupAttempts_le_segments (m : List (String × Rec)) (segs : List String) :
    lookupAttempts m segs ≤ segs.length := by
  induction segs using lookupAttempts.induct m with
  | case1 => simp [lookupAttempts]
  | case2 head tail r hl =>
      rw [lookupAttempts, hl]
      simp
  | case3 head tail hl ih =>
      rw [lookupAttempts, hl]
      have hd : (head :: tail).dropLast.length = tail.length := by
        simp [List.length_dropLast]
      simp only [List.length_cons]
      omega

/-- C6 counterexample: resolving the empty path on a concrete domain
does not return the domain itself.  JavaScript `"".split('/')` yields
`[""]`, so the loop looks up the empty-string key, misses, and
`p_resolve` returns the absent value, not the start domain. -/
theorem c6_empty_path_counterexample :
    (p_resolve emptyRoot "").1 ≠ RRes.ok (some emptyRoot) := by
  have hs : splitSlash "" = [""] := rfl
  have h1 : lookupLoop ([] : List (String × Rec)) [""] [] = none := by
    rw [lookupLoop_cons_miss [] "" [] [] rfl]
    exact lookupLoop_nil [] _
  rw [p_resolve, hs, show emptyRoot = Rec.dom rootCore [] from rfl,
    p_resolveSegs_miss rootCore [] [""] h1]
  simp

/-- C6 amended: resolving the empty (zero-length) path on a domain does
not return the domain itself; the path splits into the single
empty-string segment, which is looked up in the child table, and when no
child is keyed by the empty string the resolution returns the explicit
absent value together with the not-found diagnostic. -/
theorem c6_empty_path_amended (c : DCore) (m : List (String × Rec))
    (h : p_get m "" = none) :
    p_resolve (Rec.dom c m) "" = (RRes.ok none, [⟨"", joinComma c.fullnames⟩]) := by
  have hs : splitSlash "" = [""] := rfl
  have h1 : lookupLoop m [""] [] = none := by
    rw [lookupLoop_cons_miss m "" [] [] (by simpa [joinSlash] using h)]
    exact lookupLoop_nil m _
  rw [p_resolve, hs, p_resolveSegs_miss c m [""] h1]
  rfl

/-- Witness for the C6 amended theorem. -/
theorem c6_empty_path_amended_witness :
    p_resolve (Rec.dom rootCore []) "" = (RRes.ok none, [⟨"", joinComma rootCore.fullnames⟩]) :=
  c6_empty_path_amended rootCore [] rfl

/-- C7 counterexample: on a concrete domain with a child registered
under `a`, resolving `"/a"` (leading slash) returns the absent value
while resolving `"a"` returns the child, so prepending a slash changes
the result. -/
theorem c7_leading_slash_counterexample :
    (p_resolve aRoot "/a").1 ≠ (p_resolve aRoot "a").1 := by
  have hs1 : splitSlash "/a" = ["", "a"] := rfl
  have hs2 : splitSlash "a" = ["a"] := rfl
  have hm : aRoot = Rec.dom rootCore [("a", item1)] := rfl
  have h1 : lookupLoop [("a", item1)] ["", "a"] [] = none := by
    rw [lookupLoop_cons_miss [("a", item1)] "" ["a"] [] rfl]
    show lookupLoop [("a", item1)] [""] ["a"] = none
    rw [lookupLoop_cons_miss [("a", item1)] "" [] ["a"] rfl]
    exact lookupLoop_nil [("a", item1)] _
  have h2 : lookupLoop [("a", item1)] ["a"] [] = some (item1, []) := by
    rw [lookupLoop_cons_hit [("a", item1)] "a" [] [] item1 rfl]
  rw [p_resolve, p_resolve, hs1, hs2, hm,
    p_resolveSegs_miss rootCore [("a", item1)] ["", "a"] h1,
    p_resolveSegs_hit_nil rootCore [("a", item1)] ["a"] item1 h2]
  simp

/-- C7 amended: a leading slash causes no implicit jump to a different
root, but it is not stripped either: splitting `"/" ++ p` yields an
empty first segment in front of the segments of `p`, so resolution of
`"/" ++ p` equals resolution of the segment list `"" :: splitSlash p`
against the same start record — which in general differs from resolving
`p` (the looked-up candidate keys differ). -/
theorem c7_leading_slash_amended (r : Rec) (p : String) :
    p_resolve r ("/" ++ p) = p_resolveSegs r ("" :: splitSlash p) := by
  rw [p_resolve, splitSlash_slash_append]

theorem lookupLoop_eq_none (m : List (String × Rec)) (p rm : List String)
    (h : ∀ k, 0 < k → k ≤ p.length → p_get m (joinSlash (p.take k)) = none) :
    lookupLoop m p rm = none := by
  induction p, rm using lookupLoop.induct m with
  | case1 x => exact lookupLoop_nil m x
  | case2 head tail rm r hl =>
      exfalso
      have hfull := h (head :: tail).length (by simp) le_rfl
      rw [List.take_length] at hfull
      rw [hl] at hfull
      exact absurd hfull (by simp)
  | case3 head tail rm hl ih =>
      rw [lookupLoop_cons_miss m head tail rm hl]
      apply ih
      intro k hk1 hk2
      have hlen : (head :: tail).dropLast.length = tail.length := by
        simp [List.length_dropLast]
      have htake : (head :: tail).dropLast.take k = (head :: tail).take k := by
        rw [List.dropLast_eq_take, List.take_take]
        congr 1
        simp only [List.length_cons]
        omega
      rw [htake]
      exact h k hk1 (by simp only [List.length_cons]; omega)

/-- C5: for every domain and path, when no prefix of any length of the
path matches a child key (every `p_get` of every candidate prefix join
misses), `p_resolve` returns the explicit absent value (`undefined`,
here `RRes.ok none`) rather than throwing, and it emits exactly the
diagnostic recording the attempted path and the domain's identity
(`fullnames` joined by commas). -/
theorem c5_not_found_logs (c : DCore) (m : List (String × Rec)) (path : String)
    (h : ∀ k, 0 < k → k ≤ (splitSlash path).length →
      p_get m (joinSlash ((splitSlash path).take k)) = none) :
    p_resolve (Rec.dom c m) path = (RRes.ok none, [⟨path, joinComma c.fullnames⟩]) := by
  rw [p_resolve, p_resolveSegs_miss c m (splitSlash path) (lookupLoop_eq_none m _ [] h),
    joinSlash_splitSlash]

/-- Witness for C5 at a concrete one-segment path that matches no
child key. -/
theorem c5_not_found_logs_witness :
    p_resolve (Rec.dom rootCore [("a", item1)]) "b"
      = (RRes.ok none, [⟨"b", joinComma rootCore.fullnames⟩]) := by
  apply c5_not_found_logs rootCore [("a", item1)] "b"
  intro k hk1 hk2
  have hl : (splitSlash "b").length = 1 := rfl
  rw [hl] at hk2
  have hk : k = 1 := by omega
  subst hk
  rfl

/-- C2: for every root domain and three-segment path `a/b/c`, if the
full path is not itself a child key, the prefix `a/b` is registered as a
Domain child under the root, and `c` is registered beneath that Domain,
then `resolve(root, "a/b/c")` returns the same record as first resolving
`a/b` in the root and then resolving `c` in the resulting Domain. -/
theorem c2_longest_prefix_descent (root c' : DCore) (m m' : List (String × Rec))
    (pathAll pathAB pathC a b c : String) (r : Rec)
    (hA : splitSlash pathAll = [a, b, c])
    (hB : splitSlash pathAB = [a, b])
    (hC : splitSlash pathC = [c])
    (h1 : p_get m (joinSlash [a, b, c]) = none)
    (h2 : p_get m (joinSlash [a, b]) = some (Rec.dom c' m'))
    (h3 : p_get m' c = some r) :
    (p_resolve (Rec.dom root m) pathAll).1 = RRes.ok (some r)
    ∧ (p_resolve (Rec.dom root m) pathAB).1 = RRes.ok (some (Rec.dom c' m'))
    ∧ (p_resolve (Rec.dom c' m') pathC).1 = RRes.ok (some r) := by
  have hdrop : ([a, b, c] : List String).dropLast = [a, b] := by
    simp [List.dropLast]
  have hlast : ([a, b, c] : List String).getLastD "" = c := by
    simp [List.getLastD]
  have hloopC : lookupLoop m' [c] [] = some (r, []) := by
    rw [lookupLoop_cons_hit m' c [] [] r (by simpa [joinSlash] using h3)]
  have hresC : (p_resolveSegs (Rec.dom c' m') [c]).1 = RRes.ok (some r) := by
    rw [p_resolveSegs_hit_nil c' m' [c] r hloopC]
  have hloopAll : lookupLoop m [a, b, c] [] = some (Rec.dom c' m', [c]) := by
    rw [lookupLoop_cons_miss m a [b, c] [] h1, hdrop, hlast]
    rw [lookupLoop_cons_hit m a [b] [c] (Rec.dom c' m') h2]
  have hloopAB : lookupLoop m [a, b] [] = some (Rec.dom c' m', []) := by
    rw [lookupLoop_cons_hit m a [b] [] (Rec.dom c' m') h2]
  refine ⟨?_, ?_, ?_⟩
  · rw [p_resolve, hA,
      p_resolveSegs_hit_cons root m [a, b, c] (Rec.dom c' m') c [] hloopAll]
    exact hresC
  · rw [p_resolve, hB, p_resolveSegs_hit_nil root m [a, b] (Rec.dom c' m') hloopAB]
  · rw [p_resolve, hC]
    exact hresC

/-- Witness for C2 on the concrete two-level example table. -/
theorem c2_longest_prefix_descent_witness :
    (p_resolve (Rec.dom rootCore [("x/y", adomainRec)]) "x/y/z").1 = RRes.ok (some item1)
    ∧ (p_resolve (Rec.dom rootCore [("x/y", adomainRec)]) "x/y").1
        = RRes.ok (some (Rec.dom adomainCore [("z", item1)]))
    ∧ (p_resolve (Rec.dom adomainCore [("z", item1)]) "z").1 = RRes.ok (some item1) :=
  c2_longest_prefix_descent rootCore adomainCore [("x/y", adomainRec)] [("z", item1)]
    "x/y/z" "x/y" "z" "x" "y" "z" item1 rfl rfl rfl rfl rfl rfl

/-- C8 counterexample: registering under the malformed (empty) name is
not rejected: starting from a record with no signatures and an empty
table, `p_register` appends a signature and writes the table entry. -/
theorem c8_no_validation_counterexample :
    item1.signatures = []
    ∧ ((p_register rootCore [] "" (Registrable.record item1) 0).1).signatures.length = 1
    ∧ ((p_register rootCore [] "" (Registrable.record item1) 0).2).length = 1 :=
  ⟨rfl, rfl, rfl⟩

/-- C8 amended: `p_register` performs no validation of the name at
all: even for a malformed name (empty, or containing a slash) it signs
the registrable — appending exactly the signature entry over the current
payload — and writes the signed record into the child table under that
name. -/
theorem c8_no_validation_amended (c : DCore) (m : List (String × Rec)) (name : String)
    (reg : Registrable) (now : Nat) (hmal : name = "" ∨ '/' ∈ name.data) :
    ((p_register c m name reg now).1).signatures
      = (registrableRecord c name reg).signatures
        ++ [⟨now, c.keypair.sign ((registrableRecord c name reg)._signable c.fullnames name now),
             c.keypair.signingexport⟩]
    ∧ p_get ((p_register c m name reg now).2) name = some ((p_register c m name reg now).1) := by
  constructor
  · simp only [p_register, Domain.sign]
    exact signatures_pushSignature _ _
  · simp [p_register, p_set, p_get, _after_fetch, List.lookup]

/-- Witness for the C8 amended theorem. -/
theorem c8_no_validation_amended_witness :
    ((p_register rootCore [] "" (Registrable.record item1) 0).1).signatures
      = (registrableRecord rootCore "" (Registrable.record item1)).signatures
        ++ [⟨0, rootCore.keypair.sign
              ((registrableRecord rootCore "" (Registrable.record item1))._signable
                rootCore.fullnames "" 0),
             rootCore.keypair.signingexport⟩]
    ∧ p_get ((p_register rootCore [] "" (Registrable.record item1) 0).2) ""
        = some ((p_register rootCore [] "" (Registrable.record item1) 0).1) :=
  c8_no_validation_amended rootCore [] "" (Registrable.record item1) 0 (Or.inl rfl)
